import Mathlib

/-!
Shallow embedding of `src/rewrite.py` (lflare/rewrite-inplace).

The program opens a file in read+write mode, takes its size once, and for
each offset `i` in `range(0, size, BLOCKSIZE)` seeks to `i`, reads 2 bytes,
unpacks them as `a, b = file.read(2)` (which raises when the read returns a
number of bytes other than 2), seeks back to `i`, and writes `bytes([a, b])`.

A file is a list of byte values.  Seeking plus reading is modelled by the
positioned read `fileRead`, seeking plus writing by the positioned write
`fileWrite`.  Each loop iteration is recorded in an `IterRecord` carrying the
offset, the bytes the read returned, the bytes written (if the unpack
succeeded), and a snapshot of the file content after the iteration, so that
claims about the trace of the run (which offsets were processed, what was
read and written, intermediate states) can be stated.
-/

/-- `BLOCKSIZE = 128 * 1000`, exactly as in `rewrite.py`. -/
def BLOCKSIZE : Nat := 128 * 1000

/-- Errors the run can surface.  `notFound` models `FileNotFoundError` from
`os.path.getsize` on a missing path; `shortRead got` models the `ValueError`
raised by `a, b = file.read(2)` when the read returned `got ≠ 2` bytes. -/
inductive RewriteError where
  | notFound : RewriteError
  | shortRead : Nat → RewriteError
deriving DecidableEq, Repr

/-- One iteration of the loop body: the offset seeked to, the bytes the read
returned, the bytes written back (`none` when the unpack raised before the
write), and the file content right after the iteration. -/
structure IterRecord where
  offset : Nat
  readData : List Nat
  written : Option (List Nat)
  after : List Nat
deriving DecidableEq, Repr

/-- `file.seek(pos); file.read(n)`: the next `n` bytes starting at `pos`
(fewer when fewer remain). -/
def fileRead (content : List Nat) (pos n : Nat) : List Nat :=
  (content.drop pos).take n

/-- `file.seek(pos); file.write(data)`: overwrite the bytes at positions
`pos, pos+1, ...` with `data` (zero-filling should `pos` lie past the end,
as POSIX seek+write would). -/
def fileWrite (content : List Nat) (pos : Nat) (data : List Nat) : List Nat :=
  content.take pos ++ List.replicate (pos - content.length) 0
    ++ data ++ content.drop (pos + data.length)

/-- `range(0, size, BLOCKSIZE)`: the multiples of `BLOCKSIZE` that are
strictly below `size`, in ascending order. -/
def offsets (size : Nat) : List Nat :=
  (List.range ((size + BLOCKSIZE - 1) / BLOCKSIZE)).map (fun k => k * BLOCKSIZE)

/-- The `for i in range(0, size, BLOCKSIZE)` loop of `rewrite_file`, run from
file content `content` over the remaining list of offsets.  Returns the trace
of iterations, the final file content, and the error that aborted the loop
(if any).  At each offset it reads 2 bytes; if the read returns exactly two
bytes `[a, b]` it writes `bytes([a, b])` back at the same offset and
continues, otherwise the unpack raises and the loop aborts with no write. -/
def runLoop (content : List Nat) : List Nat → List IterRecord × List Nat × Option RewriteError
  | [] => ([], content, none)
  | i :: rest =>
    match fileRead content i 2 with
    | [a, b] =>
      let next := runLoop (fileWrite content i [a, b]) rest
      (⟨i, [a, b], some [a, b], fileWrite content i [a, b]⟩ :: next.1, next.2)
    | l => ([⟨i, l, none, content⟩], content, some (.shortRead l.length))

/-- `rewrite_file` on an existing file with content `content`: take the size
once, then run the loop over `range(0, size, BLOCKSIZE)`. -/
def rewrite_file (content : List Nat) :
    List IterRecord × List Nat × Option RewriteError :=
  runLoop content (offsets content.length)

/-- `rewrite_file(path)` at the filesystem level: a filesystem maps paths to
file contents; a missing path fails with `notFound` (from `os.path.getsize`)
and changes nothing, otherwise the target file is rewritten in place. -/
def rewrite_file_fs (fs : String → Option (List Nat)) (path : String) :
    (String → Option (List Nat)) × Option RewriteError :=
  match fs path with
  | none => (fs, some .notFound)
  | some content =>
    let r := rewrite_file content
    (fun p => if p = path then some r.2.1 else fs p, r.2.2)

/-! ### Basic facts about the positioned read and write -/

lemma fileRead_length (content : List Nat) (pos n : Nat) :
    (fileRead content pos n).length = min n (content.length - pos) := by
  simp [fileRead]

lemma fileRead_two_of_le {content : List Nat} {i : Nat}
    (h : i + 2 ≤ content.length) : ∃ a b, fileRead content i 2 = [a, b] := by
  have hl : (fileRead content i 2).length = 2 := by
    rw [fileRead_length]; omega
  exact List.length_eq_two.mp hl

/-- Writing back the two bytes just read restores the file exactly. -/
lemma fileWrite_read_two {content : List Nat} {i a b : Nat}
    (h : fileRead content i 2 = [a, b]) : fileWrite content i [a, b] = content := by
  have hlen : i + 2 ≤ content.length := by
    have h2 := congrArg List.length h
    rw [fileRead_length] at h2
    simp at h2
    omega
  have hdrop : content.drop i = [a, b] ++ content.drop (i + 2) := by
    conv_lhs => rw [← List.take_append_drop 2 (content.drop i)]
    rw [show (content.drop i).take 2 = [a, b] from h, List.drop_drop]
  have hz : i - content.length = 0 := by omega
  calc fileWrite content i [a, b]
      = content.take i ++ ([a, b] ++ content.drop (i + 2)) := by
        simp [fileWrite, hz]
    _ = content.take i ++ content.drop i := by rw [← hdrop]
    _ = content := List.take_append_drop i content

/-! ### The loop never changes the content -/

/-- Every iteration either writes back exactly what it read or raises before
writing, so the content after the loop is the content before it, whether or
not the loop aborted. -/
lemma runLoop_content (os : List Nat) :
    ∀ content : List Nat, (runLoop content os).2.1 = content := by
  induction os with
  | nil => intro content; rfl
  | cons i rest ih =>
    intro content
    rw [runLoop]
    rcases hr : fileRead content i 2 with _ | ⟨a, _ | ⟨b, _ | ⟨c, t⟩⟩⟩ <;>
      simp only []
    rw [ih, fileWrite_read_two hr]

/-- Every intermediate state recorded in the trace equals the initial
content. -/
lemma runLoop_after (os : List Nat) :
    ∀ content : List Nat, ∀ r ∈ (runLoop content os).1, r.after = content := by
  induction os with
  | nil => intro content r hr; simp [runLoop] at hr
  | cons i rest ih =>
    intro content r hr
    rw [runLoop] at hr
    rcases hw : fileRead content i 2 with _ | ⟨a, _ | ⟨b, _ | ⟨c, t⟩⟩⟩ <;>
        rw [hw] at hr <;> simp only [List.mem_cons, List.mem_singleton] at hr
    · rcases hr with rfl | h
      · rfl
      · simp at h
    · rcases hr with rfl | h
      · rfl
      · simp at h
    · rcases hr with rfl | hr
      · exact fileWrite_read_two hw
      · rw [ih _ r hr, fileWrite_read_two hw]
    · rcases hr with rfl | h
      · rfl
      · simp at h

/-! ### Evaluating the loop one offset at a time -/

/-- Successful iteration: when 2 bytes are available at offset `i`, the
iteration records a read and an identical write and moves on with the
content unchanged. -/
lemma runLoop_cons_ok {content : List Nat} {i a b : Nat} (rest : List Nat)
    (h : fileRead content i 2 = [a, b]) :
    runLoop content (i :: rest) =
      (⟨i, [a, b], some [a, b], content⟩ :: (runLoop content rest).1,
        (runLoop content rest).2) := by
  rw [runLoop, h]
  simp only [fileWrite_read_two h]

/-- Short iteration: when the read at offset `i` returns a number of bytes
other than 2, the unpack raises, nothing is written, and the loop aborts. -/
lemma runLoop_cons_short {content : List Nat} {i : Nat} (rest : List Nat)
    (h : (fileRead content i 2).length ≠ 2) :
    runLoop content (i :: rest) =
      ([⟨i, fileRead content i 2, none, content⟩], content,
        some (.shortRead (fileRead content i 2).length)) := by
  rw [runLoop]
  rcases hr : fileRead content i 2 with _ | ⟨a, _ | ⟨b, _ | ⟨c, t⟩⟩⟩ <;> simp_all

/-- When every offset in the list has two bytes available, the loop succeeds
and its trace is one identical read/write record per offset. -/
lemma runLoop_all_ok {content : List Nat} :
    ∀ os : List Nat, (∀ i ∈ os, i + 2 ≤ content.length) →
      runLoop content os =
        (os.map (fun i =>
          ⟨i, fileRead content i 2, some (fileRead content i 2), content⟩),
          content, none) := by
  intro os
  induction os with
  | nil => intro _; rfl
  | cons i rest ih =>
    intro h
    obtain ⟨a, b, hab⟩ := fileRead_two_of_le (h i (List.mem_cons_self i rest))
    rw [runLoop_cons_ok rest hab, ih (fun j hj => h j (List.mem_cons_of_mem i hj))]
    simp [hab]

/-- Running the loop over `os₁ ++ os₂` when the run over `os₁` does not
abort: the traces concatenate and the outcome is that of `os₂`. -/
lemma runLoop_append (os₁ os₂ : List Nat) :
    ∀ content : List Nat, (runLoop content os₁).2.2 = none →
      runLoop content (os₁ ++ os₂) =
        ((runLoop content os₁).1 ++ (runLoop content os₂).1,
          (runLoop content os₂).2) := by
  induction os₁ with
  | nil => intro content _; rfl
  | cons i rest ih =>
    intro content h
    by_cases h2 : (fileRead content i 2).length = 2
    · obtain ⟨a, b, hab⟩ := List.length_eq_two.mp h2
      rw [runLoop_cons_ok rest hab] at h
      rw [List.cons_append, runLoop_cons_ok (rest ++ os₂) hab,
        runLoop_cons_ok rest hab, ih content h, List.cons_append]
    · rw [runLoop_cons_short rest h2] at h
      simp at h

/-! ### The offset sequence `range(0, size, BLOCKSIZE)` -/

/-- The offsets are exactly the multiples of `BLOCKSIZE` strictly below
`size`. -/
lemma mem_offsets (x size : Nat) :
    x ∈ offsets size ↔ x % BLOCKSIZE = 0 ∧ x < size := by
  simp only [offsets, List.mem_map, List.mem_range, BLOCKSIZE]
  constructor
  · rintro ⟨k, hk, rfl⟩
    omega
  · rintro ⟨hmod, hlt⟩
    exact ⟨x / (128 * 1000), by omega, by omega⟩

/-- The offsets are listed in strictly ascending order. -/
lemma offsets_sorted (size : Nat) : (offsets size).Sorted (· < ·) :=
  (List.pairwise_lt_range _).map _ (fun a b h => by
    have hpos : (0:Nat) < BLOCKSIZE := by norm_num [BLOCKSIZE]
    exact (Nat.mul_lt_mul_right hpos).mpr h)

/-- There are `⌈size / BLOCKSIZE⌉` offsets. -/
lemma offsets_length (size : Nat) :
    (offsets size).length = (size + BLOCKSIZE - 1) / BLOCKSIZE := by
  simp [offsets]

/-- When `size` is not congruent to 1 mod `BLOCKSIZE`, every offset has two
bytes available before the end of the file. -/
lemma offsets_two_avail {size : Nat} (h : size % BLOCKSIZE ≠ 1) :
    ∀ i ∈ offsets size, i + 2 ≤ size := by
  intro i hi
  rw [mem_offsets] at hi
  revert hi h
  simp only [BLOCKSIZE]
  omega

/-- When `size ≡ 1 (mod BLOCKSIZE)`, the offset list splits into the offsets
of a file one byte shorter followed by the final offset `size - 1`. -/
lemma offsets_short_split {size : Nat} (h : size % BLOCKSIZE = 1) :
    offsets size = offsets (size - 1) ++ [size - 1] := by
  have h1 : (size + BLOCKSIZE - 1) / BLOCKSIZE
      = (size - 1 + BLOCKSIZE - 1) / BLOCKSIZE + 1 := by
    simp only [BLOCKSIZE] at h ⊢; omega
  have h2 : (size - 1 + BLOCKSIZE - 1) / BLOCKSIZE * BLOCKSIZE = size - 1 := by
    simp only [BLOCKSIZE] at h ⊢; omega
  rw [offsets, h1, List.range_succ, List.map_append]
  simp only [List.map_cons, List.map_nil, h2]
  rfl

/-! ### Characterizing a whole run of `rewrite_file` -/

/-- Successful run: when the size is not `1 mod BLOCKSIZE`, every offset is
processed with an identical read/write and the run ends without error. -/
lemma rewrite_file_ok {content : List Nat}
    (h : content.length % BLOCKSIZE ≠ 1) :
    rewrite_file content =
      ((offsets content.length).map (fun i =>
        ⟨i, fileRead content i 2, some (fileRead content i 2), content⟩),
        content, none) :=
  runLoop_all_ok _ (offsets_two_avail h)

/-- Aborted run: when the size is `1 mod BLOCKSIZE`, every offset but the
last is processed with an identical read/write, and at the last offset
(`size - 1`) the read returns a single byte, the unpack raises `shortRead 1`,
and nothing is written there. -/
lemma rewrite_file_short {content : List Nat}
    (h : content.length % BLOCKSIZE = 1) :
    rewrite_file content =
      ((offsets (content.length - 1)).map (fun i =>
        ⟨i, fileRead content i 2, some (fileRead content i 2), content⟩)
        ++ [⟨content.length - 1, fileRead content (content.length - 1) 2,
              none, content⟩],
        content, some (.shortRead 1)) := by
  have hpos : 1 ≤ content.length := by
    rcases Nat.eq_zero_or_pos content.length with h0 | h1
    · rw [h0] at h; simp [BLOCKSIZE] at h
    · exact h1
  have havail : ∀ i ∈ offsets (content.length - 1), i + 2 ≤ content.length := by
    intro i hi
    rw [mem_offsets] at hi
    omega
  have hfirst := runLoop_all_ok _ havail
  have hlast : (fileRead content (content.length - 1) 2).length = 1 := by
    rw [fileRead_length]; omega
  rw [rewrite_file, offsets_short_split h, runLoop_append _ _ _ (by rw [hfirst]),
    hfirst, runLoop_cons_short [] (by rw [hlast]; omega), hlast]

/-- The offsets recorded in the trace are exactly `range(0, size, BLOCKSIZE)`,
whether or not the run aborts (the abort can only happen at the very last
offset). -/
lemma trace_map_offset (content : List Nat) :
    (rewrite_file content).1.map IterRecord.offset = offsets content.length := by
  by_cases h : content.length % BLOCKSIZE = 1
  · rw [rewrite_file_short h, offsets_short_split h]
    simp [List.map_map, Function.comp_def, List.map_id']
  · rw [rewrite_file_ok h]
    simp [List.map_map, Function.comp_def, List.map_id']

/-- The final content of a run always equals the initial content. -/
lemma rewrite_file_content (content : List Nat) :
    (rewrite_file content).2.1 = content :=
  runLoop_content _ content

/-! ### Claim theorems -/

/-- C1: for every file whose size is not congruent to 1 modulo BLOCKSIZE,
running the rewrite operation leaves the file's contents byte-for-byte
identical to its contents before the operation (and the run succeeds). -/
theorem content_invariance (content : List Nat)
    (h : content.length % BLOCKSIZE ≠ 1) :
    (rewrite_file content).2.1 = content ∧ (rewrite_file content).2.2 = none :=
  ⟨rewrite_file_content content, by rw [rewrite_file_ok h]⟩

theorem content_invariance_witness :
    ([1, 2, 3] : List Nat).length % BLOCKSIZE ≠ 1 ∧
    ((rewrite_file [1, 2, 3]).2.1 = [1, 2, 3] ∧
      (rewrite_file [1, 2, 3]).2.2 = none) :=
  ⟨by decide, content_invariance [1, 2, 3] (by decide)⟩

/-- C2: for every file whose size is congruent to 1 modulo BLOCKSIZE, the
read at the final offset (`size - 1`) yields only 1 byte and the operation
fails with the unpack error `shortRead 1` rather than writing 2 bytes (the
last trace record carries `written = none`). -/
theorem short_read_error (content : List Nat)
    (h : content.length % BLOCKSIZE = 1) :
    (fileRead content (content.length - 1) 2).length = 1 ∧
    (rewrite_file content).1.getLast? =
      some ⟨content.length - 1, fileRead content (content.length - 1) 2,
        none, content⟩ ∧
    (rewrite_file content).2.2 = some (RewriteError.shortRead 1) := by
  have hpos : 1 ≤ content.length := by
    simp only [BLOCKSIZE] at h; omega
  refine ⟨by rw [fileRead_length]; omega, ?_, ?_⟩
  · rw [rewrite_file_short h, List.getLast?_concat]
  · rw [rewrite_file_short h]

theorem short_read_error_witness :
    ([5] : List Nat).length % BLOCKSIZE = 1 ∧
    (fileRead [5] 0 2).length = 1 ∧
    (rewrite_file [5]).2.2 = some (RewriteError.shortRead 1) :=
  ⟨by decide, (short_read_error [5] (by decide)).1,
    (short_read_error [5] (by decide)).2.2⟩

/-- C4: for every offset the operation processes (including runs that later
abort), the two bytes at that offset right after the iteration equal the two
bytes at that offset before the operation started. -/
theorem per_offset_invariant (content : List Nat) :
    ∀ r ∈ (rewrite_file content).1,
      fileRead r.after r.offset 2 = fileRead content r.offset 2 := by
  intro r hr
  rw [runLoop_after _ content r hr]

theorem per_offset_invariant_witness :
    (⟨0, [1, 2], some [1, 2], [1, 2, 3]⟩ : IterRecord) ∈ (rewrite_file [1, 2, 3]).1 ∧
    fileRead [1, 2, 3] 0 2 = fileRead [1, 2, 3] 0 2 :=
  ⟨by decide, per_offset_invariant [1, 2, 3] ⟨0, [1, 2], some [1, 2], [1, 2, 3]⟩ (by decide)⟩

/-- C5: for every input file on which the operation succeeds, running the
operation a second time on the resulting file yields a byte-for-byte
identical file (and again succeeds). -/
theorem idempotent_run (content : List Nat)
    (h : (rewrite_file content).2.2 = none) :
    (rewrite_file ((rewrite_file content).2.1)).2.1 = (rewrite_file content).2.1 ∧
    (rewrite_file ((rewrite_file content).2.1)).2.2 = none := by
  simp [rewrite_file_content, h]

theorem idempotent_run_witness :
    (rewrite_file [1, 2]).2.2 = none ∧
    ((rewrite_file ((rewrite_file [1, 2]).2.1)).2.1 = (rewrite_file [1, 2]).2.1 ∧
      (rewrite_file ((rewrite_file [1, 2]).2.1)).2.2 = none) :=
  ⟨by decide, idempotent_run [1, 2] (by decide)⟩

/-- C7: for every path that does not refer to an existing file, the operation
fails with `notFound` and the filesystem is left exactly as it was (no file
is created or modified at any path). -/
theorem missing_file_untouched (fs : String → Option (List Nat)) (path : String)
    (h : fs path = none) :
    rewrite_file_fs fs path = (fs, some RewriteError.notFound) := by
  unfold rewrite_file_fs
  rw [h]

theorem missing_file_untouched_witness :
    ((fun _ : String => (none : Option (List Nat))) "target" = none) ∧
    rewrite_file_fs (fun _ => none) "target"
      = (fun _ => none, some RewriteError.notFound) :=
  ⟨rfl, missing_file_untouched (fun _ => none) "target" rfl⟩

/-- C8: on a 0-byte file the operation completes successfully, performs no
read or write (the trace is empty), and the file stays empty. -/
theorem empty_file_noop : rewrite_file [] = ([], [], none) := rfl

/-- C9: when the file's size is congruent to 1 modulo BLOCKSIZE, the unpack
error at the final offset is raised before any write is attempted there (the
last trace record has `written = none`), so the file's content is
byte-for-byte unchanged at every point of the run even though the run
fails. -/
theorem short_read_atomicity (content : List Nat)
    (h : content.length % BLOCKSIZE = 1) :
    (rewrite_file content).2.1 = content ∧
    (rewrite_file content).2.2 = some (RewriteError.shortRead 1) ∧
    (∃ r, (rewrite_file content).1.getLast? = some r ∧ r.written = none) ∧
    (∀ r ∈ (rewrite_file content).1, r.after = content) := by
  refine ⟨rewrite_file_content content, by rw [rewrite_file_short h], ?_,
    fun r hr => runLoop_after _ content r hr⟩
  refine ⟨⟨content.length - 1, fileRead content (content.length - 1) 2,
    none, content⟩, ?_, rfl⟩
  rw [rewrite_file_short h, List.getLast?_concat]

theorem short_read_atomicity_witness :
    ([9] : List Nat).length % BLOCKSIZE = 1 ∧
    ((rewrite_file [9]).2.1 = [9] ∧
      (rewrite_file [9]).2.2 = some (RewriteError.shortRead 1) ∧
      (∃ r, (rewrite_file [9]).1.getLast? = some r ∧ r.written = none) ∧
      (∀ r ∈ (rewrite_file [9]).1, r.after = [9])) :=
  ⟨by decide, short_read_atomicity [9] (by decide)⟩

/-- C10: the loop over offsets always terminates (the model is a total
function) and its trace has exactly `⌈size / BLOCKSIZE⌉` iterations, hence 0
iterations when `size = 0`. -/
theorem termination_iteration_count (content : List Nat) :
    (rewrite_file content).1.length
      = (content.length + BLOCKSIZE - 1) / BLOCKSIZE := by
  rw [← offsets_length, ← trace_map_offset, List.length_map]

/-- C3 counterexample: on the 1-byte file `[7]` the operation does process
offset 0, but there it reads only 1 byte and writes nothing, so it is not
the case that every processed offset gets a 2-byte read and an identical
2-byte write. -/
theorem offset_sequence_cex :
    (rewrite_file [7]).1.map IterRecord.offset = [0] ∧
    ¬ (∀ r ∈ (rewrite_file [7]).1,
        r.readData.length = 2 ∧ r.written = some r.readData) := by
  decide

/-- C3 (amended): for every file, the operation processes exactly the
offsets `0, BLOCKSIZE, 2*BLOCKSIZE, ...` strictly below the size at open
time, in ascending order; at each processed offset it reads the next
`min(2, size - offset)` bytes; whenever that read yields 2 bytes it seeks
back and writes those same 2 bytes, and whenever it yields fewer (possible
only at the final offset, when `size ≡ 1 (mod BLOCKSIZE)`) nothing is
written and the run fails with the unpack error — so the run succeeds
exactly when the size is not congruent to 1 mod BLOCKSIZE. -/
theorem offset_sequence (content : List Nat) :
    ((rewrite_file content).1.map IterRecord.offset = offsets content.length) ∧
    (offsets content.length).Sorted (· < ·) ∧
    (∀ x, x ∈ offsets content.length ↔
      x % BLOCKSIZE = 0 ∧ x < content.length) ∧
    ((rewrite_file content).2.2 = none ↔ content.length % BLOCKSIZE ≠ 1) ∧
    (∀ r ∈ (rewrite_file content).1,
      r.readData = fileRead content r.offset 2 ∧
      (r.readData.length = 2 → r.written = some r.readData) ∧
      (r.readData.length ≠ 2 → r.written = none ∧
        (rewrite_file content).2.2
          = some (RewriteError.shortRead r.readData.length))) := by
  refine ⟨trace_map_offset content, offsets_sorted _,
    fun x => mem_offsets x _, ?_, fun r hr => ?_⟩
  · by_cases h : content.length % BLOCKSIZE = 1
    · rw [rewrite_file_short h]
      simp [h]
    · rw [rewrite_file_ok h]
      simp [h]
  · by_cases h : content.length % BLOCKSIZE = 1
    · have hpos : 1 ≤ content.length := by
        simp only [BLOCKSIZE] at h; omega
      rw [rewrite_file_short h] at hr
      simp only [List.mem_append, List.mem_map, List.mem_singleton] at hr
      rcases hr with ⟨i, hi, rfl⟩ | rfl
      · have hi2 : i + 2 ≤ content.length := by
          have := (mem_offsets i _).mp hi
          omega
        have h2 : (fileRead content i 2).length = 2 := by
          rw [fileRead_length]; omega
        exact ⟨rfl, fun _ => rfl, fun hne => absurd h2 hne⟩
      · have h1 : (fileRead content (content.length - 1) 2).length = 1 := by
          rw [fileRead_length]; omega
        refine ⟨rfl, fun h2 => ?_, fun _ => ⟨rfl, ?_⟩⟩
        · dsimp only at h2
          omega
        · rw [rewrite_file_short h]
          dsimp only
          rw [h1]
    · rw [rewrite_file_ok h] at hr
      simp only [List.mem_map] at hr
      obtain ⟨i, hi, rfl⟩ := hr
      have h2 : (fileRead content i 2).length = 2 := by
        rw [fileRead_length]
        have := offsets_two_avail h i hi
        omega
      exact ⟨rfl, fun _ => rfl, fun hne => absurd h2 hne⟩

theorem offset_sequence_witness :
    ((⟨0, [1, 2], some [1, 2], [1, 2, 3]⟩ : IterRecord) ∈ (rewrite_file [1, 2, 3]).1 ∧
      (([1, 2] : List Nat) = fileRead [1, 2, 3] 0 2 ∧
        (([1, 2] : List Nat).length = 2 →
          (some [1, 2] : Option (List Nat)) = some [1, 2]) ∧
        (([1, 2] : List Nat).length ≠ 2 →
          (some [1, 2] : Option (List Nat)) = none ∧
          (rewrite_file [1, 2, 3]).2.2
            = some (RewriteError.shortRead ([1, 2] : List Nat).length)))) ∧
    ((rewrite_file [1, 2, 3]).2.2 = none ↔
      ([1, 2, 3] : List Nat).length % BLOCKSIZE ≠ 1) ∧
    ((⟨0, [4], none, [4]⟩ : IterRecord) ∈ (rewrite_file [4]).1 ∧
      ([4] : List Nat).length ≠ 2 ∧
      ((none : Option (List Nat)) = none ∧
        (rewrite_file [4]).2.2
          = some (RewriteError.shortRead ([4] : List Nat).length))) :=
  ⟨⟨by decide, (offset_sequence [1, 2, 3]).2.2.2.2
      ⟨0, [1, 2], some [1, 2], [1, 2, 3]⟩ (by decide)⟩,
    (offset_sequence [1, 2, 3]).2.2.2.1,
    ⟨by decide, by decide,
      ((offset_sequence [4]).2.2.2.2 ⟨0, [4], none, [4]⟩ (by decide)).2.2
        (by decide)⟩⟩

/-- C6 counterexample: for a file of size `2*BLOCKSIZE + 50`, the offset
`2*BLOCKSIZE` is also processed (its window lies inside the trailing 50
bytes, which are written there), so it is false that only offsets 0 and
BLOCKSIZE are processed and that the trailing 50 bytes are never touched. -/
theorem frame_condition_cex :
    (List.replicate (2 * BLOCKSIZE + 50) 0).length = 2 * BLOCKSIZE + 50 ∧
    (rewrite_file (List.replicate (2 * BLOCKSIZE + 50) 0)).1.map IterRecord.offset
      ≠ [0, BLOCKSIZE] ∧
    (∃ r ∈ (rewrite_file (List.replicate (2 * BLOCKSIZE + 50) 0)).1,
      r.offset = 2 * BLOCKSIZE ∧ r.written ≠ none) := by
  have hlen : (List.replicate (2 * BLOCKSIZE + 50) 0).length = 2 * BLOCKSIZE + 50 :=
    List.length_replicate _ _
  have hmod : (List.replicate (2 * BLOCKSIZE + 50) 0).length % BLOCKSIZE ≠ 1 := by
    rw [hlen]; decide
  refine ⟨hlen, ?_, ?_⟩
  · rw [trace_map_offset, hlen]
    decide
  · have hmem : 2 * BLOCKSIZE ∈ offsets (2 * BLOCKSIZE + 50) := by decide
    rw [rewrite_file_ok hmod, hlen]
    exact ⟨_, List.mem_map_of_mem _ hmem, rfl, by simp⟩

/-- C6 (amended): the operation writes only within the 2-byte windows at the
block-boundary offsets strictly below the file size, and the file's length
is never changed; for a file of size `2*BLOCKSIZE + 50` the processed
offsets are 0, BLOCKSIZE and `2*BLOCKSIZE` (the window at `2*BLOCKSIZE`
falls within the trailing 50 bytes), so only the trailing 48 bytes are
never touched. -/
theorem frame_condition (content : List Nat) :
    ((rewrite_file content).2.1.length = content.length) ∧
    (∀ r ∈ (rewrite_file content).1,
      r.offset % BLOCKSIZE = 0 ∧ r.offset < content.length ∧
      ∀ d, r.written = some d → d.length = 2 ∧ r.offset + 2 ≤ content.length) ∧
    (content.length = 2 * BLOCKSIZE + 50 →
      (rewrite_file content).1.map IterRecord.offset = [0, BLOCKSIZE, 2 * BLOCKSIZE]) := by
  refine ⟨by rw [rewrite_file_content], fun r hr => ?_, fun hlen => ?_⟩
  · have hoff : r.offset ∈ offsets content.length := by
      rw [← trace_map_offset]
      exact List.mem_map_of_mem _ hr
    have hmo := (mem_offsets _ _).mp hoff
    refine ⟨hmo.1, hmo.2, fun d hd => ?_⟩
    by_cases h : content.length % BLOCKSIZE = 1
    · have hpos : 1 ≤ content.length := by
        simp only [BLOCKSIZE] at h; omega
      rw [rewrite_file_short h] at hr
      simp only [List.mem_append, List.mem_map, List.mem_singleton] at hr
      rcases hr with ⟨i, hi, rfl⟩ | rfl
      · have hi2 : i + 2 ≤ content.length := by
          have := (mem_offsets i _).mp hi
          omega
        have h2 : (fileRead content i 2).length = 2 := by
          rw [fileRead_length]; omega
        cases hd
        simpa using And.intro h2 hi2
      · simp at hd
    · rw [rewrite_file_ok h] at hr
      simp only [List.mem_map] at hr
      obtain ⟨i, hi, rfl⟩ := hr
      have hi2 := offsets_two_avail h i hi
      have h2 : (fileRead content i 2).length = 2 := by
        rw [fileRead_length]; omega
      cases hd
      simpa using And.intro h2 hi2
  · rw [trace_map_offset, hlen]
    decide

theorem frame_condition_witness :
    ((⟨0, [1, 2], some [1, 2], [1, 2, 3]⟩ : IterRecord) ∈ (rewrite_file [1, 2, 3]).1 ∧
      ((0 : Nat) % BLOCKSIZE = 0 ∧ 0 < ([1, 2, 3] : List Nat).length ∧
        ∀ d, (some [1, 2] : Option (List Nat)) = some d →
          d.length = 2 ∧ 0 + 2 ≤ ([1, 2, 3] : List Nat).length)) ∧
    ((List.replicate (2 * BLOCKSIZE + 50) 0).length = 2 * BLOCKSIZE + 50 ∧
      (rewrite_file (List.replicate (2 * BLOCKSIZE + 50) 0)).1.map IterRecord.offset
        = [0, BLOCKSIZE, 2 * BLOCKSIZE]) :=
  ⟨⟨by decide, (frame_condition [1, 2, 3]).2.1
      ⟨0, [1, 2], some [1, 2], [1, 2, 3]⟩ (by decide)⟩,
    ⟨by simp, (frame_condition (List.replicate (2 * BLOCKSIZE + 50) 0)).2.2 (by simp)⟩⟩



